import Mathlib

/-!
# MLAutoScheduler — verification of the search engine and the transform-interpreter passes

This file gives a shallow embedding of the MLAutoScheduler repository:

* the beam-search engine (`SearchMethod` / `BeamSearch`): the repository ships only the
  declaration (`src/include/BeamSearch.h`), so the algorithm is modelled from the
  specification (spec.md sections 4.1 to 4.4), with an execution trace recording every
  evaluated node, the successive global-best values and the successive frontiers;
* the configuration actually declared by the `BeamSearch` class in `BeamSearch.h`;
* `TransformDialectInterpreterPass::runOnOperation`
  (`src/src/TransformDialectInterpreter.cpp`, lines 148-221);
* `interpreterBaseInitializeImplModified` and `performOptionalDebugActions`
  (`src/src/TransformInterpreterPassBase.cpp`).

Scores are `WithTop Nat`: a natural measured cost, or the sentinel worst score `⊤`
assigned to a candidate whose evaluation failed.
-/

namespace MLAutoScheduler

/-- Scalar fitness: lower is better; `⊤` is the reserved sentinel meaning
"unusable" (compilation failure, runtime crash or timeout). -/
abbrev Score : Type := WithTop ℕ

/-- Modelled from the spec: the `Node` class is not under `src/` (only `Node.h` is
named by the includes of `BeamSearch.h`). A node is an immutable snapshot of one
point of the search tree: an IR state, the transformation history that produced it
(operator kind plus chosen parameters, insertion order = application order), and
its score once evaluated. -/
structure SNode (IR P : Type) where
  state : IR
  history : List (String × P)
  score : Score
deriving DecidableEq

/-- Modelled from the spec: the transformation operators (Tiling, Interchange,
Parallelization, Vectorization) are not under `src/`; spec section 4.4 gives their
common contract. `candidates` is the finite raw parameter space, `legal` the
legality filter the operator applies during enumeration, `applyRaw` the rewriting
on a legal parameter set, and `valid` structural validity of an IR state. The
proof field records the glossary clause: a parameter set is legal precisely when
applying it is guaranteed to produce a structurally valid successor state. -/
structure TransformOperator (IR P : Type) where
  kind : String
  candidates : IR → List P
  legal : IR → P → Bool
  applyRaw : IR → P → IR
  valid : IR → Bool
  legal_valid : ∀ s p, legal s p = true → valid (applyRaw s p) = true

/-- Modelled from the spec: `enumerateLegalParameterizations(node)` returns the
finite, possibly empty sequence of parameter sets, with illegal parameters
filtered out during enumeration (spec section 4.4, fail-closed contract). -/
def enumerateLegalParameterizations {IR P : Type} (op : TransformOperator IR P)
    (s : IR) : List P :=
  (op.candidates s).filter (fun p => op.legal s p)

/-- Modelled from the spec: `apply(node, params) → newIrState`, which fails only
if the parameters are illegal (spec section 4.4). -/
def applyTransform {IR P : Type} (op : TransformOperator IR P) (s : IR) (p : P) :
    Option IR :=
  if op.legal s p then some (op.applyRaw s p) else none

/-- Modelled from the spec: the evaluator contract `evaluate(node) → cost |
ExecutionFailure` (spec section 4.3). The evaluator oracle returns `none` on any
failure (compilation failure, non-zero exit, or exceeding the per-candidate
wall-clock timeout); the search converts a failure to the sentinel worst score. -/
def evalScore {IR : Type} (eval : IR → Option ℕ) (s : IR) : Score :=
  match eval s with
  | some c => (c : Score)
  | none => ⊤

/-- Concatenation of the images of a list-valued function, in order. -/
def concatMap {α β : Type} (f : α → List β) : List α → List β
  | [] => []
  | a :: l => f a ++ concatMap f l

/-- Modelled from the spec: the expand-and-evaluate step of one frontier node
(spec section 4.2, steps a and b). For every operator and every enumerated
parameter set, a child node is materialized (new IR state, history extended by
the record) and scored through the evaluator; a failed evaluation yields the
sentinel score but the child is retained. -/
def childrenOf {IR P : Type} (ops : List (TransformOperator IR P))
    (eval : IR → Option ℕ) (n : SNode IR P) : List (SNode IR P) :=
  concatMap
    (fun op =>
      (enumerateLegalParameterizations op n.state).map
        (fun p =>
          let s2 := op.applyRaw n.state p
          ⟨s2, n.history ++ [(op.kind, p)], evalScore eval s2⟩))
    ops

/-- Modelled from the spec: one update of the global-best slot against one
child — replace only if the child's score is strictly lower (spec section 4.2,
step c). -/
def stepBest {IR P : Type} (b c : SNode IR P) : SNode IR P :=
  if c.score < b.score then c else b

/-- Modelled from the spec: the global-best slot updated against every child of
the current generation, in insertion order. -/
def updateBest {IR P : Type} : SNode IR P → List (SNode IR P) → SNode IR P
  | b, [] => b
  | b, c :: cs => updateBest (stepBest b c) cs

/-- Modelled from the spec: the pruning comparator of spec section 4.2, step d —
score ascending, ties broken by shorter history length, then insertion order
(the sort below is stable). -/
def childLT {IR P : Type} (a b : SNode IR P) : Bool :=
  if a.score = b.score then decide (a.history.length < b.history.length)
  else decide (a.score < b.score)

/-- Stable insertion of one element into a sorted list: `a` goes before the
first element not strictly below it. -/
def insertByKey {α : Type} (lt : α → α → Bool) (a : α) : List α → List α
  | [] => [a]
  | b :: l => if lt b a then b :: insertByKey lt a l else a :: b :: l

/-- Stable insertion sort by a strict comparator. -/
def sortByKey {α : Type} (lt : α → α → Bool) : List α → List α
  | [] => []
  | a :: l => insertByKey lt a (sortByKey lt l)

/-- Modelled from the spec: the search configuration of spec section 6 —
`{beamSize, maxDepth, evaluationBudget, perCandidateTimeout}`. The per-candidate
timeout acts inside the evaluator oracle (exceeding it yields an evaluation
failure) and has no further role in the algorithm itself. -/
structure BeamConfig where
  beamSize : ℕ
  maxDepth : ℕ
  evaluationBudget : ℕ
  perCandidateTimeout : ℕ

/-- The result of a beam-search run together with its audit trace: the returned
best node, every node ever evaluated (the root included, pruned children
included), the successive values of the global-best slot (chronological, the
initial root baseline included), and the frontier after each pruning step. -/
structure RunTrace (IR P : Type) where
  best : SNode IR P
  evaluated : List (SNode IR P)
  bests : List (SNode IR P)
  frontiers : List (List (SNode IR P))

/-- Modelled from the spec: the per-generation loop of `BeamSearch::runSearchMethod`
(spec section 4.2, step 2; the method body is not under `src/`). Arguments after
the beam width: remaining generations (termination condition ii, maximum depth),
remaining evaluation budget (condition iii), current frontier, current global
best, accumulated evaluated nodes, accumulated global-best values (newest
first), accumulated frontiers. A generation expands and evaluates every child
of the frontier, stops at a fixed point with no legal children (condition i),
evaluates at most the remaining budget of children, updates the global best,
and prunes the sorted children to the beam width. -/
def beamLoop {IR P : Type} (ops : List (TransformOperator IR P))
    (eval : IR → Option ℕ) (beamSize : ℕ) :
    ℕ → ℕ → List (SNode IR P) → SNode IR P → List (SNode IR P) →
    List (SNode IR P) → List (List (SNode IR P)) → RunTrace IR P
  | 0, _, _, best, evalAcc, bestsRev, frontAcc =>
    ⟨best, evalAcc, bestsRev.reverse, frontAcc⟩
  | depth + 1, budget, frontier, best, evalAcc, bestsRev, frontAcc =>
    if budget = 0 then ⟨best, evalAcc, bestsRev.reverse, frontAcc⟩
    else
      let children := concatMap (childrenOf ops eval) frontier
      if children.isEmpty then ⟨best, evalAcc, bestsRev.reverse, frontAcc⟩
      else
        let evaluated := children.take budget
        let best2 := updateBest best evaluated
        let frontier2 := (sortByKey childLT evaluated).take beamSize
        beamLoop ops eval beamSize depth (budget - evaluated.length) frontier2
          best2 (evalAcc ++ evaluated) (best2 :: bestsRev)
          (frontAcc ++ [frontier2])

/-- Modelled from the spec: the root node built from the initial IR state — empty
history, scored by the evaluator (spec section 4.2, step 1). -/
def rootNode {IR P : Type} (eval : IR → Option ℕ) (s : IR) : SNode IR P :=
  ⟨s, [], evalScore eval s⟩

/-- Modelled from the spec: `BeamSearch::runSearchMethod(root)` (declared in
`BeamSearch.h`, body not under `src/`), returning the run trace; the C++ method
returns only the best node, read off here as `(runSearchMethod ...).best`. The
root is evaluated first (consuming one unit of the evaluation budget), becomes
the initial global best and the initial frontier, and the per-generation loop
runs for at most `maxDepth` generations. -/
def runSearchMethod {IR P : Type} (cfg : BeamConfig)
    (ops : List (TransformOperator IR P)) (eval : IR → Option ℕ) (s : IR) :
    RunTrace IR P :=
  let root : SNode IR P := rootNode eval s
  beamLoop ops eval cfg.beamSize cfg.maxDepth (cfg.evaluationBudget - 1) [root]
    root [root] [root] []

/-- The minimum score of a list of nodes (`⊤` for the empty list). -/
def minScore {IR P : Type} : List (SNode IR P) → Score
  | [] => ⊤
  | n :: l => min n.score (minScore l)

/-! ## Helper lemmas for the beam-search model -/

variable {IR P : Type}

lemma stepBest_score_le_left (b c : SNode IR P) : (stepBest b c).score ≤ b.score := by
  unfold stepBest
  split
  · exact le_of_lt (by assumption)
  · exact le_refl _

lemma stepBest_score_le_right (b c : SNode IR P) : (stepBest b c).score ≤ c.score := by
  unfold stepBest
  split
  · exact le_refl _
  · exact le_of_not_lt (by assumption)

lemma updateBest_cases (b : SNode IR P) (cs : List (SNode IR P)) :
    updateBest b cs = b ∨ (updateBest b cs ∈ cs ∧ (updateBest b cs).score < b.score) := by
  induction cs generalizing b with
  | nil => exact Or.inl rfl
  | cons c cs ih =>
    rw [updateBest]
    by_cases h : c.score < b.score
    · have hstep : stepBest b c = c := by simp [stepBest, h]
      rw [hstep]
      rcases ih c with h1 | ⟨h1, h2⟩
      · exact Or.inr ⟨by rw [h1]; exact List.mem_cons_self c cs, by rw [h1]; exact h⟩
      · exact Or.inr ⟨List.mem_cons_of_mem c h1, lt_trans h2 h⟩
    · have hstep : stepBest b c = b := by simp [stepBest, h]
      rw [hstep]
      rcases ih b with h1 | ⟨h1, h2⟩
      · exact Or.inl h1
      · exact Or.inr ⟨List.mem_cons_of_mem c h1, h2⟩

lemma updateBest_score_le (b : SNode IR P) (cs : List (SNode IR P)) :
    (updateBest b cs).score ≤ b.score := by
  rcases updateBest_cases b cs with h | ⟨_, h⟩
  · rw [h]
  · exact le_of_lt h

lemma updateBest_score_le_of_mem (b : SNode IR P) (cs : List (SNode IR P)) :
    ∀ c ∈ cs, (updateBest b cs).score ≤ c.score := by
  induction cs generalizing b with
  | nil => intro c hc; cases hc
  | cons d cs ih =>
    intro c hc
    rw [updateBest]
    rcases List.mem_cons.mp hc with rfl | hc
    · calc (updateBest (stepBest b c) cs).score ≤ (stepBest b c).score :=
            updateBest_score_le _ _
        _ ≤ c.score := stepBest_score_le_right _ _
    · exact ih (stepBest b d) c hc

lemma le_minScore {s : Score} {l : List (SNode IR P)} (h : ∀ n ∈ l, s ≤ n.score) :
    s ≤ minScore l := by
  induction l with
  | nil => exact le_top
  | cons n l ih =>
    exact le_min (h n (List.mem_cons_self n l))
      (ih fun m hm => h m (List.mem_cons_of_mem n hm))

lemma minScore_le_of_mem {l : List (SNode IR P)} : ∀ n ∈ l, minScore l ≤ n.score := by
  induction l with
  | nil => intro n hn; cases hn
  | cons m l ih =>
    intro n hn
    rcases List.mem_cons.mp hn with rfl | hn
    · exact min_le_left _ _
    · exact le_trans (min_le_right _ _) (ih n hn)

lemma minScore_eq {b : SNode IR P} {l : List (SNode IR P)} (hb : b ∈ l)
    (hmin : ∀ n ∈ l, b.score ≤ n.score) : minScore l = b.score :=
  le_antisymm (minScore_le_of_mem b hb) (le_minScore hmin)

lemma beamLoop_spec (ops : List (TransformOperator IR P)) (eval : IR → Option ℕ)
    (k : ℕ) (root : SNode IR P) :
    ∀ (depth budget : ℕ) (frontier : List (SNode IR P)) (best : SNode IR P)
      (evalAcc bestsRev : List (SNode IR P)) (frontAcc : List (List (SNode IR P))),
      best ∈ evalAcc →
      (∀ n ∈ evalAcc, best.score ≤ n.score) →
      (best = root ∨ ∃ n ∈ evalAcc, n.score < root.score) →
      bestsRev.head? = some best →
      List.Chain' (fun a b => a.score ≤ b.score) bestsRev →
      (beamLoop ops eval k depth budget frontier best evalAcc bestsRev frontAcc).best ∈
          (beamLoop ops eval k depth budget frontier best evalAcc bestsRev frontAcc).evaluated ∧
        (∀ n ∈ (beamLoop ops eval k depth budget frontier best evalAcc bestsRev frontAcc).evaluated,
          (beamLoop ops eval k depth budget frontier best evalAcc bestsRev frontAcc).best.score ≤ n.score) ∧
        ((beamLoop ops eval k depth budget frontier best evalAcc bestsRev frontAcc).best = root ∨
          ∃ n ∈ (beamLoop ops eval k depth budget frontier best evalAcc bestsRev frontAcc).evaluated,
            n.score < root.score) ∧
        List.Chain' (fun a b => b.score ≤ a.score)
          (beamLoop ops eval k depth budget frontier best evalAcc bestsRev frontAcc).bests ∧
        (∀ n ∈ evalAcc,
          n ∈ (beamLoop ops eval k depth budget frontier best evalAcc bestsRev frontAcc).evaluated) := by
  intro depth
  induction depth with
  | zero =>
    intro budget frontier best evalAcc bestsRev frontAcc hmem hmin hroot hhead hchain
    refine ⟨hmem, hmin, hroot, ?_, fun n hn => hn⟩
    exact List.chain'_reverse.mpr hchain
  | succ depth ih =>
    intro budget frontier best evalAcc bestsRev frontAcc hmem hmin hroot hhead hchain
    rw [beamLoop]
    by_cases hb : budget = 0
    · rw [if_pos hb]
      exact ⟨hmem, hmin, hroot, List.chain'_reverse.mpr hchain, fun n hn => hn⟩
    · rw [if_neg hb]
      by_cases hne : (concatMap (childrenOf ops eval) frontier).isEmpty
      · rw [if_pos hne]
        exact ⟨hmem, hmin, hroot, List.chain'_reverse.mpr hchain, fun n hn => hn⟩
      · rw [if_neg hne]
        set ev := (concatMap (childrenOf ops eval) frontier).take budget with hev
        set best2 := updateBest best ev with hbest2
        have h1 : best2 ∈ evalAcc ++ ev := by
          rcases updateBest_cases best ev with h | ⟨h, _⟩
          · rw [hbest2, h]; exact List.mem_append_left _ hmem
          · exact List.mem_append_right _ h
        have h2 : ∀ n ∈ evalAcc ++ ev, best2.score ≤ n.score := by
          intro n hn
          rcases List.mem_append.mp hn with h | h
          · exact le_trans (updateBest_score_le best ev) (hmin n h)
          · exact updateBest_score_le_of_mem best ev n h
        have h3 : best2 = root ∨ ∃ n ∈ evalAcc ++ ev, n.score < root.score := by
          rcases updateBest_cases best ev with h | ⟨hm, hlt⟩
          · rw [hbest2, h]
            rcases hroot with h0 | ⟨n, hn, hs⟩
            · exact Or.inl h0
            · exact Or.inr ⟨n, List.mem_append_left _ hn, hs⟩
          · rcases hroot with h0 | ⟨n, hn, hs⟩
            · exact Or.inr ⟨best2, List.mem_append_right _ hm, by rw [← h0]; exact hlt⟩
            · exact Or.inr ⟨n, List.mem_append_left _ hn, hs⟩
        have h4 : (best2 :: bestsRev).head? = some best2 := rfl
        have h5 : List.Chain' (fun a b => a.score ≤ b.score) (best2 :: bestsRev) := by
          refine List.chain'_cons'.mpr ⟨?_, hchain⟩
          intro y hy
          have : y = best := by
            rw [hhead] at hy
            exact (Option.mem_some_iff.mp hy).symm
          rw [this]
          exact updateBest_score_le best ev
        obtain ⟨g1, g2, g3, g4, g5⟩ :=
          ih (budget - ev.length) ((sortByKey childLT ev).take k) best2 (evalAcc ++ ev)
            (best2 :: bestsRev) (frontAcc ++ [(sortByKey childLT ev).take k]) h1 h2 h3 h4 h5
        exact ⟨g1, g2, g3, g4, fun n hn => g5 n (List.mem_append_left _ hn)⟩

lemma beamLoop_frontiers_le (ops : List (TransformOperator IR P))
    (eval : IR → Option ℕ) (k : ℕ) :
    ∀ (depth budget : ℕ) (frontier : List (SNode IR P)) (best : SNode IR P)
      (evalAcc bestsRev : List (SNode IR P)) (frontAcc : List (List (SNode IR P))),
      (∀ f ∈ frontAcc, f.length ≤ k) →
      ∀ f ∈ (beamLoop ops eval k depth budget frontier best evalAcc bestsRev frontAcc).frontiers,
        f.length ≤ k := by
  intro depth
  induction depth with
  | zero => intro budget frontier best evalAcc bestsRev frontAcc h; exact h
  | succ depth ih =>
    intro budget frontier best evalAcc bestsRev frontAcc h
    rw [beamLoop]
    by_cases hb : budget = 0
    · rw [if_pos hb]; exact h
    · rw [if_neg hb]
      by_cases hne : (concatMap (childrenOf ops eval) frontier).isEmpty
      · rw [if_pos hne]; exact h
      · rw [if_neg hne]
        apply ih
        intro f hf
        rcases List.mem_append.mp hf with hf | hf
        · exact h f hf
        · rw [List.mem_singleton.mp hf, List.length_take]
          exact min_le_left _ _

lemma beamLoop_best_root_or_lt_top (ops : List (TransformOperator IR P))
    (eval : IR → Option ℕ) (k : ℕ) (root : SNode IR P) :
    ∀ (depth budget : ℕ) (frontier : List (SNode IR P)) (best : SNode IR P)
      (evalAcc bestsRev : List (SNode IR P)) (frontAcc : List (List (SNode IR P))),
      (best = root ∨ best.score < ⊤) →
      ((beamLoop ops eval k depth budget frontier best evalAcc bestsRev frontAcc).best = root ∨
        (beamLoop ops eval k depth budget frontier best evalAcc bestsRev frontAcc).best.score < ⊤) := by
  intro depth
  induction depth with
  | zero => intro budget frontier best evalAcc bestsRev frontAcc h; exact h
  | succ depth ih =>
    intro budget frontier best evalAcc bestsRev frontAcc h
    rw [beamLoop]
    by_cases hb : budget = 0
    · rw [if_pos hb]; exact h
    · rw [if_neg hb]
      by_cases hne : (concatMap (childrenOf ops eval) frontier).isEmpty
      · rw [if_pos hne]; exact h
      · rw [if_neg hne]
        apply ih
        rcases updateBest_cases best ((concatMap (childrenOf ops eval) frontier).take budget)
          with heq | ⟨_, hlt⟩
        · rw [heq]; exact h
        · exact Or.inr (lt_of_lt_of_le hlt le_top)

lemma map_concatMap {α β γ : Type} (g : β → γ) (f : α → List β) (l : List α) :
    (concatMap f l).map g = concatMap (fun a => (f a).map g) l := by
  induction l with
  | nil => rfl
  | cons a l ih => simp [concatMap, ih]

lemma concatMap_congr {α β : Type} {f g : α → List β} (h : ∀ a, f a = g a)
    (l : List α) : concatMap f l = concatMap g l := by
  induction l with
  | nil => rfl
  | cons a l ih => simp [concatMap, h, ih]

lemma childrenOf_strip (ops : List (TransformOperator IR P))
    (eval eval' : IR → Option ℕ) (n : SNode IR P) :
    (childrenOf ops eval n).map (fun c => (c.state, c.history)) =
      (childrenOf ops eval' n).map (fun c => (c.state, c.history)) := by
  rw [childrenOf, childrenOf, map_concatMap, map_concatMap]
  apply concatMap_congr
  intro op
  rw [List.map_map, List.map_map]
  rfl

lemma runSearchMethod_def (cfg : BeamConfig) (ops : List (TransformOperator IR P))
    (eval : IR → Option ℕ) (s : IR) :
    runSearchMethod cfg ops eval s =
      beamLoop ops eval cfg.beamSize cfg.maxDepth (cfg.evaluationBudget - 1)
        [rootNode eval s] (rootNode eval s) [rootNode eval s] [rootNode eval s] [] := rfl

lemma runSearchMethod_spec (cfg : BeamConfig) (ops : List (TransformOperator IR P))
    (eval : IR → Option ℕ) (s : IR) :
    (runSearchMethod cfg ops eval s).best ∈ (runSearchMethod cfg ops eval s).evaluated ∧
      (∀ n ∈ (runSearchMethod cfg ops eval s).evaluated,
        (runSearchMethod cfg ops eval s).best.score ≤ n.score) ∧
      ((runSearchMethod cfg ops eval s).best = rootNode eval s ∨
        ∃ n ∈ (runSearchMethod cfg ops eval s).evaluated,
          n.score < (rootNode (P := P) eval s).score) ∧
      List.Chain' (fun a b => b.score ≤ a.score) (runSearchMethod cfg ops eval s).bests ∧
      (∀ n ∈ ([rootNode eval s] : List (SNode IR P)),
        n ∈ (runSearchMethod cfg ops eval s).evaluated) := by
  rw [runSearchMethod_def]
  exact beamLoop_spec ops eval cfg.beamSize (rootNode eval s) cfg.maxDepth
    (cfg.evaluationBudget - 1) [rootNode eval s] (rootNode eval s) [rootNode eval s]
    [rootNode eval s] [] (List.mem_singleton.mpr rfl)
    (fun n hn => by rw [List.mem_singleton.mp hn])
    (Or.inl rfl) rfl (List.chain'_singleton _)

/-! ## Claims about the beam-search engine -/

/-- C1: running the beam search returns the lowest-scored node discovered during
the whole run (the returned node is evaluated, and its score is a lower bound of
every evaluated node's score), or the root node itself if no evaluated node
scored lower than the root. -/
theorem beamSearch_returns_global_best (cfg : BeamConfig)
    (ops : List (TransformOperator IR P)) (eval : IR → Option ℕ) (s : IR) :
    (runSearchMethod cfg ops eval s).best ∈ (runSearchMethod cfg ops eval s).evaluated ∧
      (∀ n ∈ (runSearchMethod cfg ops eval s).evaluated,
        (runSearchMethod cfg ops eval s).best.score ≤ n.score) ∧
      ((∀ n ∈ (runSearchMethod cfg ops eval s).evaluated,
          ¬ n.score < (rootNode (P := P) eval s).score) →
        (runSearchMethod cfg ops eval s).best = rootNode eval s) := by
  obtain ⟨g1, g2, g3, _, _⟩ := runSearchMethod_spec cfg ops eval s
  refine ⟨g1, g2, fun hno => ?_⟩
  rcases g3 with h0 | ⟨n, hn, hs⟩
  · exact h0
  · exact absurd hs (hno n hn)

def opW : TransformOperator ℕ ℕ :=
  ⟨"Tiling", fun s => if s < 2 then [s + 1] else [], fun _ _ => true,
    fun _ p => p, fun _ => true, fun _ _ _ => rfl⟩

def evalW : ℕ → Option ℕ := fun s => some (10 - s)

def evalC : ℕ → Option ℕ := fun _ => some 5

def cfgW : BeamConfig := ⟨2, 3, 10, 1⟩

/-- C1 witness: with a constant evaluator no candidate beats the root, and the
run returns the root node. -/
theorem beamSearch_returns_global_best_witness :
    (runSearchMethod cfgW [opW] evalC 0).best = rootNode evalC 0 :=
  (beamSearch_returns_global_best cfgW [opW] evalC 0).2.2 (by decide)

/-- C2: a single global-best update never increases the slot's score, the
chronological sequence of global-best values of a run is non-increasing in
score, and the final global best's score equals the minimum score over every
node ever evaluated during the run (pruned nodes included). -/
theorem globalBest_monotone_and_min (cfg : BeamConfig)
    (ops : List (TransformOperator IR P)) (eval : IR → Option ℕ) (s : IR) :
    (∀ b c : SNode IR P, (stepBest b c).score ≤ b.score) ∧
      List.Chain' (fun a b => b.score ≤ a.score) (runSearchMethod cfg ops eval s).bests ∧
      (runSearchMethod cfg ops eval s).best.score =
        minScore (runSearchMethod cfg ops eval s).evaluated := by
  obtain ⟨g1, g2, _, g4, _⟩ := runSearchMethod_spec cfg ops eval s
  exact ⟨fun b c => stepBest_score_le_left b c, g4, (minScore_eq g1 g2).symm⟩

/-- C3: in every beam-search run, every frontier reached after a pruning step
has at most `beamSize` nodes. -/
theorem frontier_within_beamSize (cfg : BeamConfig)
    (ops : List (TransformOperator IR P)) (eval : IR → Option ℕ) (s : IR) :
    ∀ f ∈ (runSearchMethod cfg ops eval s).frontiers, f.length ≤ cfg.beamSize := by
  rw [runSearchMethod_def]
  exact beamLoop_frontiers_le ops eval cfg.beamSize cfg.maxDepth
    (cfg.evaluationBudget - 1) [rootNode eval s] (rootNode eval s) [rootNode eval s]
    [rootNode eval s] [] (fun f hf => absurd hf (List.not_mem_nil f))

/-- C3 witness: a concrete pruned frontier of a concrete run respects the beam
width. -/
theorem frontier_within_beamSize_witness :
    ([(⟨1, [("Tiling", 1)], ((9 : ℕ) : Score)⟩ : SNode ℕ ℕ)]).length ≤ cfgW.beamSize :=
  frontier_within_beamSize cfgW [opW] evalW 0
    [(⟨1, [("Tiling", 1)], ((9 : ℕ) : Score)⟩ : SNode ℕ ℕ)] (by decide)

/-- C4: a child whose evaluation fails gets the sentinel worst score `⊤`; the
materialized children (their states and histories) do not depend on which
evaluations fail, so one failure aborts neither its siblings nor the run; the
root is always among the evaluated nodes (a result exists, the root at minimum);
and the returned node is the root or has a score strictly below `⊤`, so a
failed candidate is never selected as global best. -/
theorem failed_candidates_cannot_win (cfg : BeamConfig)
    (ops : List (TransformOperator IR P)) (eval eval' : IR → Option ℕ) (s : IR) :
    (∀ x, eval x = none → evalScore eval x = ⊤) ∧
      (∀ n, (childrenOf ops eval n).map (fun c => (c.state, c.history)) =
        (childrenOf ops eval' n).map (fun c => (c.state, c.history))) ∧
      rootNode eval s ∈ (runSearchMethod cfg ops eval s).evaluated ∧
      ((runSearchMethod cfg ops eval s).best = rootNode eval s ∨
        (runSearchMethod cfg ops eval s).best.score < ⊤) := by
  obtain ⟨_, _, _, _, g5⟩ := runSearchMethod_spec cfg ops eval s
  refine ⟨fun x hx => ?_, fun n => childrenOf_strip ops eval eval' n,
    g5 (rootNode eval s) (List.mem_singleton.mpr rfl), ?_⟩
  · rw [evalScore, hx]
  · rw [runSearchMethod_def]
    exact beamLoop_best_root_or_lt_top ops eval cfg.beamSize (rootNode eval s)
      cfg.maxDepth (cfg.evaluationBudget - 1) [rootNode eval s] (rootNode eval s)
      [rootNode eval s] [rootNode eval s] [] (Or.inl rfl)

/-- C6: for every node and every parameter set the operator itself enumerated,
`apply` succeeds and the produced IR state is structurally valid (fail-closed
operator contract). -/
theorem operators_fail_closed (op : TransformOperator IR P) (s : IR) (p : P)
    (hp : p ∈ enumerateLegalParameterizations op s) :
    ∃ s2, applyTransform op s p = some s2 ∧ op.valid s2 = true := by
  have hl : op.legal s p = true := (List.mem_filter.mp hp).2
  exact ⟨op.applyRaw s p, by rw [applyTransform, if_pos hl], op.legal_valid s p hl⟩

def opW6 : TransformOperator ℕ ℕ :=
  ⟨"Interchange", fun s => [0, s], fun s p => decide (p ≤ s), fun s p => s + p,
    fun _ => true, fun _ _ _ => rfl⟩

/-- C6 witness: a concrete enumerated parameter set, applied successfully. -/
theorem operators_fail_closed_witness :
    ∃ s2, applyTransform opW6 3 0 = some s2 ∧ opW6.valid s2 = true :=
  operators_fail_closed opW6 3 0 (by decide)

/-- C7: two runs with identical inputs, a deterministic evaluator giving
identical results on every state, and the identical operator list (hence
identical enumeration order) return nodes with identical transformation
histories. -/
theorem beamSearch_deterministic (cfg : BeamConfig)
    (ops : List (TransformOperator IR P)) (eval1 eval2 : IR → Option ℕ) (s : IR)
    (h : ∀ x, eval1 x = eval2 x) :
    (runSearchMethod cfg ops eval1 s).best.history =
      (runSearchMethod cfg ops eval2 s).best.history := by
  have he : eval1 = eval2 := funext h
  rw [he]

/-- C7 witness: the determinism theorem applied at a concrete run. -/
theorem beamSearch_deterministic_witness :
    (runSearchMethod cfgW [opW] evalW 0).best.history =
      (runSearchMethod cfgW [opW] evalW 0).best.history :=
  beamSearch_deterministic cfgW [opW] evalW evalW 0 (fun _ => rfl)

/-! ## The BeamSearch class configuration as declared in BeamSearch.h -/

/-- The data members of the `BeamSearch` class as declared in
`src/include/BeamSearch.h`, lines 26-28: member name and C++ type, in
declaration order. -/
def beamSearchFields : List (String × String) :=
  [("beamSize", "int"), ("context", "mlir::MLIRContext *"),
    ("functionName", "std::string")]

/-- The parameters of the `BeamSearch` constructor as declared in
`src/include/BeamSearch.h`, line 32, in order. -/
def beamSearchCtorParams : List (String × String) :=
  [("beamSize", "int"), ("context", "mlir::MLIRContext *"),
    ("functionName", "std::string")]

/-- The `BeamSearch` class of `BeamSearch.h` as a record: a plain `int` beam
size (modelled as `Int`), the shared MLIR context handle (an abstract type
parameter), and the name of the target function. -/
structure BeamSearch (Ctx : Type) where
  beamSize : Int
  context : Ctx
  functionName : String

/-- C5 counterexample: the `BeamSearch` class declares exactly the members
`beamSize`, `context` and `functionName`; neither its members nor its
constructor parameters include a maximum depth, an evaluation budget or a
per-candidate timeout. -/
theorem beamSearch_config_counterexample :
    beamSearchFields.map Prod.fst = ["beamSize", "context", "functionName"] ∧
      (beamSearchFields.map Prod.fst).contains "maxDepth" = false ∧
      (beamSearchFields.map Prod.fst).contains "evaluationBudget" = false ∧
      (beamSearchFields.map Prod.fst).contains "perCandidateTimeout" = false ∧
      (beamSearchCtorParams.map Prod.fst).contains "maxDepth" = false ∧
      (beamSearchCtorParams.map Prod.fst).contains "evaluationBudget" = false ∧
      (beamSearchCtorParams.map Prod.fst).contains "perCandidateTimeout" = false := by
  decide

/-- C5 (amended): the configuration accepted by the `BeamSearch` strategy
consists exactly of a `beamSize` integer (a plain C++ `int`), the shared MLIR
context handle and the name of the target function: the class's data members
and its constructor parameters are exactly these three, and a `BeamSearch`
value is completely determined by them. -/
theorem beamSearch_config_exact :
    beamSearchFields =
        [("beamSize", "int"), ("context", "mlir::MLIRContext *"),
          ("functionName", "std::string")] ∧
      beamSearchCtorParams = beamSearchFields ∧
      (∀ (Ctx : Type) (b : BeamSearch Ctx),
        b = ⟨b.beamSize, b.context, b.functionName⟩) :=
  ⟨rfl, rfl, fun _ _ => rfl⟩

/-! ## TransformDialectInterpreterPass::runOnOperation (TransformDialectInterpreter.cpp) -/

/-- One row of the extra-mapping passed to the transform interpreter: the pass
binds an extra top-level argument to payload operations of a given kind, to a
list of integer parameters, or to the results of payload operations of a given
kind (TransformDialectInterpreter.cpp, lines 176-209). -/
inductive ExtraBinding where
  | toOps : String → ExtraBinding
  | toParams : List Int → ExtraBinding
  | toResultsOfOps : String → ExtraBinding
deriving DecidableEq

/-- The six binding options of `TransformDialectInterpreterPass`
(TransformDialectInterpreter.cpp, lines 232-256); an empty string or an empty
list is an unset option, matching `Option`/`ListOption` emptiness. -/
structure InterpOptions where
  bindFirstExtraToOps : String
  bindFirstExtraToParams : List Int
  bindFirstExtraToResultsOfOps : String
  bindSecondExtraToOps : String
  bindSecondExtraToParams : List Int
  bindSecondExtraToResultsOfOps : String
deriving DecidableEq

/-- `numberOfSetOptions` (TransformDialectInterpreter.cpp, lines 102-111):
how many of the three binding options of one extra argument are non-empty. -/
def numberOfSetOptions (ops : String) (params : List Int) (values : String) : ℕ :=
  (if ops.isEmpty then 0 else 1) + (if params.isEmpty then 0 else 1) +
    (if values.isEmpty then 0 else 1)

/-- The count of set first-extra binding options. -/
def firstSetOptions (o : InterpOptions) : ℕ :=
  numberOfSetOptions o.bindFirstExtraToOps o.bindFirstExtraToParams
    o.bindFirstExtraToResultsOfOps

/-- The count of set second-extra binding options. -/
def secondSetOptions (o : InterpOptions) : ℕ :=
  numberOfSetOptions o.bindSecondExtraToOps o.bindSecondExtraToParams
    o.bindSecondExtraToResultsOfOps

/-- The extra-mapping rows contributed by the first-extra options: the
if/else-if chain of TransformDialectInterpreter.cpp, lines 176-192 (each taken
branch pushes exactly one row). -/
def firstExtraBinding (o : InterpOptions) : List ExtraBinding :=
  if o.bindFirstExtraToOps.isEmpty = false then
    [ExtraBinding.toOps o.bindFirstExtraToOps]
  else if o.bindFirstExtraToParams.isEmpty = false then
    [ExtraBinding.toParams o.bindFirstExtraToParams]
  else if o.bindFirstExtraToResultsOfOps.isEmpty = false then
    [ExtraBinding.toResultsOfOps o.bindFirstExtraToResultsOfOps]
  else []

/-- The extra-mapping rows contributed by the second-extra options: the
if/else-if chain of TransformDialectInterpreter.cpp, lines 194-209. -/
def secondExtraBinding (o : InterpOptions) : List ExtraBinding :=
  if o.bindSecondExtraToOps.isEmpty = false then
    [ExtraBinding.toOps o.bindSecondExtraToOps]
  else if o.bindSecondExtraToParams.isEmpty = false then
    [ExtraBinding.toParams o.bindSecondExtraToParams]
  else if o.bindSecondExtraToResultsOfOps.isEmpty = false then
    [ExtraBinding.toResultsOfOps o.bindSecondExtraToResultsOfOps]
  else []

/-- The error message of TransformDialectInterpreter.cpp, lines 159-160. -/
def errFirstMultiple : String :=
  "cannot bind the first extra top-level argument to multiple entities"

/-- The error message of TransformDialectInterpreter.cpp, lines 165-166. -/
def errSecondMultiple : String :=
  "cannot bind the second extra top-level argument to multiple entities"

/-- The error message of TransformDialectInterpreter.cpp, lines 171-172. -/
def errSecondWithoutFirst : String :=
  "cannot bind the second extra top-level argument without bindings the first"

/-- The observable outcome of one `runOnOperation` call: the diagnostics the
pass itself emitted, whether it signalled pass failure, the extra mapping it
built, and whether it reached the transform-interpreter call. -/
structure RunOutcome where
  errors : List String
  signaledPassFailure : Bool
  extraMapping : List ExtraBinding
  ranInterpreter : Bool
deriving DecidableEq

/-- `TransformDialectInterpreterPass::runOnOperation`
(TransformDialectInterpreter.cpp, lines 148-221). `interpreterSucceeds` is the
oracle for `interpreterBaseRunOnOperationImplModified`; on its failure the pass
signals pass failure (line 220). More than one set first-extra option, or more
than one set second-extra option, emits an error, signals pass failure and
returns early; a set second-extra option without any set first-extra option
emits an error but continues (lines 169-173 have no `return` and no
`signalPassFailure`). -/
def runOnOperation (o : InterpOptions) (interpreterSucceeds : Bool) : RunOutcome :=
  if firstSetOptions o > 1 then ⟨[errFirstMultiple], true, [], false⟩
  else if secondSetOptions o > 1 then ⟨[errSecondMultiple], true, [], false⟩
  else
    let errs :=
      if firstSetOptions o = 0 ∧ secondSetOptions o ≠ 0 then [errSecondWithoutFirst]
      else []
    ⟨errs, !interpreterSucceeds, firstExtraBinding o ++ secondExtraBinding o, true⟩

lemma numberOfSetOptions_eq_zero {a : String} {b : List Int} {c : String}
    (h : numberOfSetOptions a b c = 0) :
    a.isEmpty = true ∧ b.isEmpty = true ∧ c.isEmpty = true := by
  rw [numberOfSetOptions] at h
  by_cases h1 : a.isEmpty <;> by_cases h2 : b.isEmpty <;> by_cases h3 : c.isEmpty <;>
    simp [h1, h2, h3] at h ⊢

lemma secondExtraBinding_length {o : InterpOptions} (h : secondSetOptions o ≠ 0) :
    (secondExtraBinding o).length = 1 := by
  rw [secondSetOptions, numberOfSetOptions] at h
  rw [secondExtraBinding]
  by_cases h1 : o.bindSecondExtraToOps.isEmpty <;>
    by_cases h2 : o.bindSecondExtraToParams.isEmpty <;>
    by_cases h3 : o.bindSecondExtraToResultsOfOps.isEmpty <;>
    simp [h1, h2, h3] at h ⊢

/-- C8 (amended): when every first-extra binding option is empty and exactly one
second-extra binding option is set, `runOnOperation` emits exactly the
"cannot bind the second extra top-level argument without bindings the first"
error, does not return early, builds an extra mapping containing only the one
second-extra row, runs the transform interpreter, and signals pass failure only
if the interpreter itself fails; by contrast, either multiple-binding error
case signals pass failure and returns before the interpreter runs. -/
theorem secondWithoutFirst_error_is_nonfatal :
    (∀ (o : InterpOptions) (ok : Bool), firstSetOptions o = 0 → secondSetOptions o = 1 →
      runOnOperation o ok = ⟨[errSecondWithoutFirst], !ok, secondExtraBinding o, true⟩ ∧
        firstExtraBinding o = [] ∧ (secondExtraBinding o).length = 1) ∧
      (∀ (o : InterpOptions) (ok : Bool), firstSetOptions o > 1 →
        runOnOperation o ok = ⟨[errFirstMultiple], true, [], false⟩) ∧
      (∀ (o : InterpOptions) (ok : Bool), firstSetOptions o ≤ 1 → secondSetOptions o > 1 →
        runOnOperation o ok = ⟨[errSecondMultiple], true, [], false⟩) := by
  refine ⟨?_, ?_, ?_⟩
  · intro o ok h1 h2
    obtain ⟨e1, e2, e3⟩ := numberOfSetOptions_eq_zero h1
    have hfe : firstExtraBinding o = [] := by
      rw [firstExtraBinding]
      simp [e1, e2, e3]
    refine ⟨?_, hfe, secondExtraBinding_length (by omega)⟩
    rw [runOnOperation, if_neg (by omega), if_neg (by omega),
      if_pos ⟨h1, by omega⟩, hfe]
    rfl
  · intro o ok h1
    rw [runOnOperation, if_pos h1]
  · intro o ok h1 h2
    rw [runOnOperation, if_neg (by omega), if_pos h2]

/-- The concrete option state refuting C8 as stated: every first-extra option
empty, two second-extra options set. -/
def optsTwoSecond : InterpOptions := ⟨"", [], "", "a", [3], ""⟩

/-- C8 counterexample: with every first-extra option empty and two second-extra
options set (so "at least one" is set), the pass emits the multiple-entities
error, signals pass failure and returns before running the interpreter; the
without-the-first error is not emitted. -/
theorem secondWithoutFirst_counterexample :
    firstSetOptions optsTwoSecond = 0 ∧ secondSetOptions optsTwoSecond = 2 ∧
      runOnOperation optsTwoSecond true = ⟨[errSecondMultiple], true, [], false⟩ ∧
      (runOnOperation optsTwoSecond true).errors.contains errSecondWithoutFirst = false := by
  decide

/-! ## interpreterBaseInitializeImplModified (TransformInterpreterPassBase.cpp) -/

/-- The shared-pointer state an initialization call leaves behind: the shared
transform module and the shared library module (either possibly unset). -/
structure InitState (M : Type) where
  module : Option M
  libraryModule : Option M

/-- `parseTransformModuleFromFile` (TransformInterpreterPassBase.cpp, lines
56-83): an empty file name succeeds with no module; a non-empty name fails when
the file cannot be opened (the "failed to parse transform file" diagnostic);
otherwise the parser's result — possibly null for malformed content — is
returned with success. `fileOpens` and `parseResult` are oracles for the file
system and the MLIR parser. -/
def parseTransformModuleFromFile {M : Type} (fileName : String) (fileOpens : Bool)
    (parseResult : Option M) : Except Unit (Option M) :=
  if fileName.isEmpty then Except.ok none
  else if fileOpens then Except.ok parseResult
  else Except.error ()

/-- Whether `parsed && failed(verify(*parsed))` holds: a present module that
fails verification. -/
def failsVerify {M : Type} (verifyOk : M → Bool) : Option M → Bool
  | some m => !(verifyOk m)
  | none => false

/-- The shared module pointer after `if (parsed) module = ...`
(TransformInterpreterPassBase.cpp, lines 667-670): replaced by a non-null parse
result, otherwise left as it was. -/
def moduleAfterParse {M : Type} (module0 stringParse : Option M) : Option M :=
  match stringParse with
  | some m => some m
  | none => module0

/-- `interpreterBaseInitializeImplModified` (TransformInterpreterPassBase.cpp,
lines 644-687). `module0` and `libraryModule0` are the shared pointers on
entry; `stringParse` is the oracle for `parseSourceString` on the transform
specification string (null for a malformed string — the commented-out failure
check, lines 651-652, never fires); `libFileName`, `libOpens` and `libParse`
feed `parseTransformModuleFromFile`; `verifyOk` is the `mlir::verify` oracle and
`defineSymbolsOk` the `defineDeclaredSymbols` oracle (lines 677-679). -/
def interpreterBaseInitializeImplModified {M : Type} (module0 libraryModule0 : Option M)
    (stringParse : Option M) (libFileName : String) (libOpens : Bool)
    (libParse : Option M) (verifyOk : M → Bool) (defineSymbolsOk : M → M → Bool) :
    Except Unit (InitState M) :=
  if failsVerify verifyOk stringParse then Except.error ()
  else
    match parseTransformModuleFromFile libFileName libOpens libParse with
    | Except.error _ => Except.error ()
    | Except.ok parsedLibrary =>
      if failsVerify verifyOk parsedLibrary then Except.error ()
      else
        match parsedLibrary, moduleAfterParse module0 stringParse with
        | none, module1 => Except.ok ⟨module1, libraryModule0⟩
        | some lib, some m =>
          if defineSymbolsOk m lib then Except.ok ⟨some m, libraryModule0⟩
          else Except.error ()
        | some lib, none => Except.ok ⟨none, some lib⟩

lemma parseTransformModuleFromFile_error {M : Type} {fn : String} {lo : Bool}
    {lp : Option M} {e : Unit}
    (h : parseTransformModuleFromFile fn lo lp = Except.error e) :
    fn.isEmpty = false ∧ lo = false := by
  rw [parseTransformModuleFromFile] at h
  by_cases h1 : fn.isEmpty
  · rw [if_pos h1] at h; exact Except.noConfusion h
  · rw [if_neg h1] at h
    cases h2 : lo with
    | true => rw [h2, if_pos rfl] at h; exact Except.noConfusion h
    | false => exact ⟨Bool.eq_false_iff.mpr h1, rfl⟩

lemma parseTransformModuleFromFile_ok {M : Type} {fn : String} {lo : Bool}
    {lp pl : Option M}
    (h : parseTransformModuleFromFile fn lo lp = Except.ok pl) :
    pl = none ∨ pl = lp := by
  rw [parseTransformModuleFromFile] at h
  by_cases h1 : fn.isEmpty
  · rw [if_pos h1] at h
    exact Or.inl (Except.ok.inj h).symm
  · rw [if_neg h1] at h
    cases h2 : lo with
    | true =>
      rw [h2, if_pos rfl] at h
      exact Or.inr (Except.ok.inj h).symm
    | false => rw [h2] at h; simp at h

/-- C9 (amended): starting from fresh (unset) shared pointers, a transform
specification string whose parse produces no module is never an initialization
failure: the call succeeds with the shared transform module left unset provided
the optional library file (if any) opens and any module parsed from it
verifies. Failure is returned only when a parsed module fails verification
(the transform string's or the library's), the library file fails to open for
parsing, or the merging of the parsed library's symbol definitions into a
parsed transform module (`defineDeclaredSymbols`) fails. -/
theorem initialize_tolerates_null_parse :
    (∀ (M : Type) (libFileName : String) (libOpens : Bool) (libParse : Option M)
        (verifyOk : M → Bool) (defineSymbolsOk : M → M → Bool),
      (libFileName.isEmpty = false → libOpens = true) →
      (∀ m, libParse = some m → verifyOk m = true) →
      ∃ lm, interpreterBaseInitializeImplModified none none none libFileName libOpens
          libParse verifyOk defineSymbolsOk = Except.ok ⟨none, lm⟩) ∧
      (∀ (M : Type) (stringParse : Option M) (libFileName : String) (libOpens : Bool)
          (libParse : Option M) (verifyOk : M → Bool) (defineSymbolsOk : M → M → Bool),
        interpreterBaseInitializeImplModified none none stringParse libFileName libOpens
            libParse verifyOk defineSymbolsOk = Except.error () →
        (∃ m, stringParse = some m ∧ verifyOk m = false) ∨
          (libFileName.isEmpty = false ∧ libOpens = false) ∨
          (∃ m, libParse = some m ∧ verifyOk m = false) ∨
          (∃ m lib, stringParse = some m ∧ libParse = some lib ∧
            defineSymbolsOk m lib = false)) := by
  constructor
  · intro M libFileName libOpens libParse verifyOk defineSymbolsOk hopen hver
    rw [interpreterBaseInitializeImplModified]
    by_cases hf : libFileName.isEmpty
    · refine ⟨none, ?_⟩
      simp [failsVerify, parseTransformModuleFromFile, hf, moduleAfterParse]
    · have ho : libOpens = true := hopen (Bool.eq_false_iff.mpr hf)
      cases hlp : libParse with
      | none =>
        refine ⟨none, ?_⟩
        simp [failsVerify, parseTransformModuleFromFile, hf, ho, moduleAfterParse]
      | some lib =>
        refine ⟨some lib, ?_⟩
        have hv := hver lib hlp
        simp [failsVerify, parseTransformModuleFromFile, hf, ho, hv, moduleAfterParse]
  · intro M stringParse libFileName libOpens libParse verifyOk defineSymbolsOk h
    rw [interpreterBaseInitializeImplModified] at h
    by_cases h1 : failsVerify verifyOk stringParse
    · left
      cases hsp : stringParse with
      | none => rw [hsp] at h1; exact absurd h1 (by simp [failsVerify])
      | some m =>
        refine ⟨m, rfl, ?_⟩
        rw [hsp] at h1
        simpa [failsVerify] using h1
    · rw [if_neg h1] at h
      cases hp : parseTransformModuleFromFile (M := M) libFileName libOpens libParse with
      | error e =>
        right; left
        exact parseTransformModuleFromFile_error hp
      | ok parsedLibrary =>
        rw [hp] at h
        dsimp only at h
        by_cases h2 : failsVerify verifyOk parsedLibrary
        · right; right; left
          cases hpl : parsedLibrary with
          | none => rw [hpl] at h2; exact absurd h2 (by simp [failsVerify])
          | some lib =>
            refine ⟨lib, ?_, ?_⟩
            · rcases parseTransformModuleFromFile_ok hp with h3 | h3
              · rw [hpl] at h3; exact Option.noConfusion h3
              · rw [← h3, hpl]
            · rw [hpl] at h2
              simpa [failsVerify] using h2
        · rw [if_neg h2] at h
          cases hpl : parsedLibrary with
          | none =>
            rw [hpl] at h
            dsimp only at h
            exact Except.noConfusion h
          | some lib =>
            rw [hpl] at h
            cases hsp : stringParse with
            | none =>
              rw [hsp] at h
              dsimp only [moduleAfterParse] at h
              exact Except.noConfusion h
            | some m =>
              rw [hsp] at h
              dsimp only [moduleAfterParse] at h
              right; right; right
              refine ⟨m, lib, rfl, ?_, ?_⟩
              · rcases parseTransformModuleFromFile_ok hp with h3 | h3
                · rw [hpl] at h3; exact Option.noConfusion h3
                · rw [← h3, hpl]
              · cases hdm : defineSymbolsOk m lib with
                | true => rw [hdm, if_pos rfl] at h; exact Except.noConfusion h
                | false => rfl

/-- The `mlir::verify` oracle that accepts every module. -/
def verifyAllOk : Unit → Bool := fun _ => true

/-- The `defineDeclaredSymbols` oracle that always fails (e.g. an external
definition with a mismatching signature, TransformInterpreterPassBase.cpp,
lines 367-371). -/
def defineSymbolsFails : Unit → Unit → Bool := fun _ _ => false

/-- C9 counterexample: initialization returns failure on an input where the
transform string parses to a module that verifies and the library file opens,
parses and verifies — the merge of library definitions fails instead — so
"failure is returned only when a parsed module fails verification or the
library file fails to parse or verify" is false. -/
theorem initialize_failure_counterexample :
    interpreterBaseInitializeImplModified (M := Unit) none none (some ())
        "library.mlir" true (some ()) verifyAllOk defineSymbolsFails =
      Except.error () ∧
      ¬((∃ m, (some () : Option Unit) = some m ∧ verifyAllOk m = false) ∨
        ("library.mlir".isEmpty = false ∧ (true : Bool) = false) ∨
        (∃ m, (some () : Option Unit) = some m ∧ verifyAllOk m = false)) := by
  refine ⟨rfl, ?_⟩
  rintro (⟨m, _, hv⟩ | ⟨_, hlo⟩ | ⟨m, _, hv⟩)
  · simp [verifyAllOk] at hv
  · exact Bool.noConfusion hlo
  · simp [verifyAllOk] at hv

/-! ## performOptionalDebugActions (TransformInterpreterPassBase.cpp) -/

/-- The name of the transform-dialect targeting attribute,
`kTransformDialectTagAttrName` (TransformInterpreterPassBase.cpp, lines 44-45). -/
def tagAttrName : String := "transform.target_tag"

/-- `kTransformDialectTagPayloadRootValue` (lines 47-48). -/
def payloadRootValue : String := "payload_root"

/-- `kTransformDialectTagTransformContainerValue` (lines 51-52). -/
def transformContainerValue : String := "transform_container"

/-- An operation's attribute dictionary: attribute name to string value, one
entry per name. -/
abbrev AttrDict : Type := List (String × String)

/-- Whether the dictionary holds an attribute of the given name. -/
def hasAttr (attrs : AttrDict) (k : String) : Bool :=
  attrs.any (fun p => p.1 == k)

/-- `Operation::setAttr`: overwrite the value in place if the name is present,
otherwise add the attribute. -/
def setAttr (attrs : AttrDict) (k v : String) : AttrDict :=
  if hasAttr attrs k then attrs.map (fun p => if p.1 == k then (k, v) else p)
  else attrs ++ [(k, v)]

/-- `Operation::removeAttr`: drop the attribute of the given name. -/
def removeAttr (attrs : AttrDict) (k : String) : AttrDict :=
  attrs.filter (fun p => !(p.1 == k))

/-- `performOptionalDebugActions` (TransformInterpreterPassBase.cpp, lines
256-326), as its effect on the attribute dictionaries of the payload target
operation and the transform root operation. Without debug flags, or with
multithreading enabled, the function returns without touching the IR. On the
dump path it sets the `transform.target_tag` attribute on the target exactly
when `debugPayloadRootTag` is empty and on the transform root exactly when
`debugTransformRootTag` is empty (lines 290-301), prints the repro (no
attribute effect), and removes the attribute under exactly the same emptiness
conditions (lines 322-325). -/
def performOptionalDebugActions (hasDebugFlags multithreadingEnabled : Bool)
    (debugPayloadRootTag debugTransformRootTag : String)
    (targetAttrs transformAttrs : AttrDict) : AttrDict × AttrDict :=
  if !hasDebugFlags then (targetAttrs, transformAttrs)
  else if multithreadingEnabled then (targetAttrs, transformAttrs)
  else
    let t1 :=
      if debugPayloadRootTag.isEmpty then setAttr targetAttrs tagAttrName payloadRootValue
      else targetAttrs
    let r1 :=
      if debugTransformRootTag.isEmpty then
        setAttr transformAttrs tagAttrName transformContainerValue
      else transformAttrs
    let t2 := if debugPayloadRootTag.isEmpty then removeAttr t1 tagAttrName else t1
    let r2 := if debugTransformRootTag.isEmpty then removeAttr r1 tagAttrName else r1
    (t2, r2)

lemma removeAttr_setAttr {attrs : AttrDict} {k : String} (v : String)
    (h : hasAttr attrs k = false) : removeAttr (setAttr attrs k v) k = attrs := by
  rw [setAttr, h, if_neg Bool.false_ne_true, removeAttr, List.filter_append]
  have h2 : ∀ p ∈ attrs, (!(p.1 == k)) = true := by
    intro p hp
    rw [hasAttr] at h
    have h3 := List.any_eq_false.mp (by rw [h]) p hp
    simpa using h3
  rw [List.filter_eq_self.mpr h2]
  simp

/-- C10 (amended): whenever `performOptionalDebugActions` runs (its dump path
included), the target's attribute dictionary is returned unchanged when
`debugPayloadRootTag` is non-empty (no attribute is set or removed on it), the
transform root's dictionary is returned unchanged when `debugTransformRootTag`
is non-empty, and each dictionary is returned unchanged whenever the operation
did not already carry a `transform.target_tag` attribute — the temporarily
attached attribute is removed before returning. An operation that already
carried a `transform.target_tag` attribute is the one exception: on the dump
path with the corresponding debug tag empty the pre-existing attribute is
overwritten and then removed, so it is lost (see the counterexample). -/
theorem performOptionalDebugActions_frame (hasDebugFlags multithreadingEnabled : Bool)
    (debugPayloadRootTag debugTransformRootTag : String)
    (targetAttrs transformAttrs : AttrDict) :
    (debugPayloadRootTag.isEmpty = false →
      (performOptionalDebugActions hasDebugFlags multithreadingEnabled
        debugPayloadRootTag debugTransformRootTag targetAttrs transformAttrs).1 =
        targetAttrs) ∧
      (debugTransformRootTag.isEmpty = false →
        (performOptionalDebugActions hasDebugFlags multithreadingEnabled
          debugPayloadRootTag debugTransformRootTag targetAttrs transformAttrs).2 =
          transformAttrs) ∧
      (hasAttr targetAttrs tagAttrName = false →
        (performOptionalDebugActions hasDebugFlags multithreadingEnabled
          debugPayloadRootTag debugTransformRootTag targetAttrs transformAttrs).1 =
          targetAttrs) ∧
      (hasAttr transformAttrs tagAttrName = false →
        (performOptionalDebugActions hasDebugFlags multithreadingEnabled
          debugPayloadRootTag debugTransformRootTag targetAttrs transformAttrs).2 =
          transformAttrs) := by
  rw [performOptionalDebugActions]
  cases hasDebugFlags with
  | false => exact ⟨fun _ => rfl, fun _ => rfl, fun _ => rfl, fun _ => rfl⟩
  | true =>
    cases multithreadingEnabled with
    | true => exact ⟨fun _ => rfl, fun _ => rfl, fun _ => rfl, fun _ => rfl⟩
    | false =>
      refine ⟨fun hpt => ?_, fun htt => ?_, fun hta => ?_, fun hra => ?_⟩
      · simp [hpt]
      · simp [htt]
      · by_cases hpt : debugPayloadRootTag.isEmpty
        · simp [hpt, removeAttr_setAttr payloadRootValue hta]
        · simp [hpt]
      · by_cases htt : debugTransformRootTag.isEmpty
        · simp [htt, removeAttr_setAttr transformContainerValue hra]
        · simp [htt]

/-- C10 counterexample: on the dump path with an empty `debugPayloadRootTag`, a
target operation that already carried a `transform.target_tag` attribute comes
out with that attribute deleted — its dictionary is changed by the call
(the pre-existing value "foo" is lost). -/
theorem performOptionalDebugActions_counterexample :
    (performOptionalDebugActions true false "" "" [(tagAttrName, "foo")] []).1 = [] ∧
      [(tagAttrName, "foo")] ≠ ([] : AttrDict) := by
  constructor
  · decide
  · intro h
    exact List.noConfusion h

end MLAutoScheduler
